import Mathlib

/-!
Verification of the arrivals/departures aggregation of the Vessel Vision
dashboard (`src/app.py` and its `calculate_arrivals_departures` collaborator).

The repository ships only `src/app.py`; the aggregation function itself is
imported from a `calculate_arrivals_departures` module that is not part of the
tree, so the aggregator below is modelled from the specification's contract
(spec §3, §4.1): reports ordered by time, grouped per vessel, segmented into
maximal contiguous runs of equal nearest-port labels, each run yielding a visit
whose arrival is the run's first timestamp and whose departure is the run's
last timestamp, the final visit of a vessel having no recorded departure.
-/

namespace VesselVision

/-- Modelled from the spec: one AIS position report (spec §3 PositionReport).
The fields the aggregator reads are the vessel identifier, the timestamp, the
nearest-port label and the vessel-type label; port and timestamp may be
missing/null, and the vessel-type label may be absent. Timestamps are kept
abstract as strings; the input list is assumed ordered by time, as the spec's
contract requires, and the aggregator never reorders it. -/
structure Report where
  vessel : String
  timestamp : Option String
  port : Option String
  vtype : Option String
deriving DecidableEq, Repr

/-- Modelled from the spec: a report participates in port-keyed aggregation
only when its nearest-port label and timestamp are present (spec §4.1 failure
conditions, §7). -/
def validReport (r : Report) : Bool :=
  r.port.isSome && r.timestamp.isSome

/-- Reports that survive the missing-field screen, in input order. -/
def cleanReports (rs : List Report) : List Report :=
  rs.filter validReport

/-- The (valid) reports of one vessel, in input order. -/
def vesselReports (rs : List Report) (v : String) : List Report :=
  (cleanReports rs).filter (fun r => r.vessel == v)

/-- The vessels that have at least one valid report. -/
def vessels (rs : List Report) : List String :=
  ((cleanReports rs).map (fun r => r.vessel)).dedup

/-- Modelled from the spec: split a vessel's time-ordered report list into
maximal contiguous runs sharing the same nearest-port label (spec §4.1, §9:
"scan each sequence once comparing consecutive port labels to detect run
boundaries"). -/
def runs : List Report → List (List Report)
  | [] => []
  | r :: rest =>
    match runs rest with
    | [] => [[r]]
    | [] :: ss => [r] :: ss
    | (r2 :: s) :: ss =>
      if r.port == r2.port then (r :: r2 :: s) :: ss else [r] :: (r2 :: s) :: ss

/-- The port label a run is associated with (its first report's label). -/
def runPort : List Report → String
  | [] => ""
  | r :: _ => r.port.getD ""

/-- The first timestamp of a run: the visit's arrival (spec §4.1). -/
def runArrival : List Report → String
  | [] => ""
  | r :: _ => r.timestamp.getD ""

/-- The last timestamp of a run: the visit's departure (spec §4.1). -/
def runDeparture (s : List Report) : String :=
  match s.getLast? with
  | none => ""
  | some r => r.timestamp.getD ""

/-- Modelled from the spec: a port visit (spec §3 PortVisit). `recorded` is
false exactly for a vessel's final visit, which has no recorded departure:
the vessel is treated as currently present (spec §4.1). -/
structure Visit where
  vessel : String
  port : String
  arrival : String
  departure : String
  recorded : Bool
deriving DecidableEq, Repr

/-- Turn a vessel's run list into its visit list; every run but the last
yields a visit with a recorded departure, the last run's visit is unrecorded
("currently present"). -/
def mkVisits (v : String) : List (List Report) → List Visit
  | [] => []
  | [s] =>
    [{ vessel := v, port := runPort s, arrival := runArrival s,
       departure := runDeparture s, recorded := false }]
  | s :: s2 :: ss =>
    { vessel := v, port := runPort s, arrival := runArrival s,
      departure := runDeparture s, recorded := true } :: mkVisits v (s2 :: ss)

/-- The visits of one vessel. -/
def visitsOfVessel (rs : List Report) (v : String) : List Visit :=
  mkVisits v (runs (vesselReports rs v))

/-- All visits of the table, vessel by vessel. -/
def allVisits (rs : List Report) : List Visit :=
  (vessels rs).flatMap (fun v => visitsOfVessel rs v)

/-- One row of a port summary table: port name, arrivals count, departures
count (spec §6). -/
structure SummaryRow where
  port : String
  arrivals : Nat
  departures : Nat
deriving DecidableEq, Repr

/-- The port names occurring among a visit list, without duplicates. -/
def visitPorts (vs : List Visit) : List String :=
  (vs.map (fun x => x.port)).dedup

/-- Modelled from the spec: group visits by port, counting an arrival for each
visit's start and a departure for each visit's recorded end; one row per port
(spec §4.1 aggregation). -/
def summarize (vs : List Visit) : List SummaryRow :=
  (visitPorts vs).map (fun p =>
    { port := p
      arrivals := vs.countP (fun x => x.port == p)
      departures := vs.countP (fun x => x.port == p && x.recorded) })

/-- Modelled from the spec: the cargo vessel-type category (spec §4.1
sub-breakdowns, §8 scenario with vessel-type "Cargo"). -/
def cargoLabel (t : String) : Bool :=
  t == "Cargo"

/-- Modelled from the spec: the passenger vessel-type category (spec §4.1
sub-breakdowns). -/
def passengerLabel (t : String) : Bool :=
  t == "Passenger"

/-- Whether a report's vessel-type label matches the cargo category. -/
def isCargoReport (r : Report) : Bool :=
  match r.vtype with
  | some t => cargoLabel t
  | none => false

/-- Whether a report's vessel-type label matches the passenger category. -/
def isPassengerReport (r : Report) : Bool :=
  match r.vtype with
  | some t => passengerLabel t
  | none => false

/-- Modelled from the spec: the aggregator imported by `src/app.py` as
`calculate_arrivals_departures` (its module is not part of the tree).
It returns the overall port summary, the cargo-only summary and the
passenger-only summary, the sub-breakdowns being the same grouping restricted
to reports whose vessel-type label matches the corresponding category
(spec §4.1). -/
def calculate_arrivals_departures (rs : List Report) :
    List SummaryRow × List SummaryRow × List SummaryRow :=
  (summarize (allVisits rs),
   summarize (allVisits (rs.filter isCargoReport)),
   summarize (allVisits (rs.filter isPassengerReport)))

/-- The arrivals count a summary table reports for a port (0 when the port has
no row). -/
def arrivalsAt (t : List SummaryRow) (p : String) : Nat :=
  match t.find? (fun row => row.port == p) with
  | some row => row.arrivals
  | none => 0

/-- The departures count a summary table reports for a port (0 when the port
has no row). -/
def departuresAt (t : List SummaryRow) (p : String) : Nat :=
  match t.find? (fun row => row.port == p) with
  | some row => row.departures
  | none => 0

/-- The two-run scenario of spec §8: vessel V1 reports at port A, then at
port B. -/
def twoPortInput : List Report :=
  [{ vessel := "V1", timestamp := some "t1", port := some "A", vtype := none },
   { vessel := "V1", timestamp := some "t2", port := some "B", vtype := none }]

/-- The nearest-port label a run starts with (none only for an empty run);
adjacent runs of a maximal-run decomposition differ on it. -/
def runLabel : List Report → Option (Option String)
  | [] => none
  | r :: _ => some r.port

/-- A vessel whose reports carry two different vessel-type labels: its single
visit at port A is counted once in the cargo-only and once in the
passenger-only sub-breakdown, but only once overall. -/
def mixedTypeInput : List Report :=
  [{ vessel := "V", timestamp := some "t1", port := some "A", vtype := some "Cargo" },
   { vessel := "V", timestamp := some "t2", port := some "A", vtype := some "Passenger" }]

/-- Modelled from the spec: the state the interaction layer holds for the
presentation builders — the current input window and the three summary tables
it consumes. The `register_callbacks` module wired in at `src/app.py` line 115
is not part of the tree; spec §3 (PortSummary) specifies the summaries as
derived and recomputed whenever the input window changes. -/
structure DashboardState where
  window : List Report
  overall : List SummaryRow
  cargo : List SummaryRow
  passenger : List SummaryRow
deriving DecidableEq, Repr

/-- Modelled from the spec: a filter change replaces the input window and
recomputes the three summaries from the newly filtered report set
(spec §3, §4.1: "safe to re-run on every filter change"). -/
def applyWindowChange (_prev : DashboardState) (w : List Report) : DashboardState :=
  { window := w
    overall := (calculate_arrivals_departures w).1
    cargo := (calculate_arrivals_departures w).2.1
    passenger := (calculate_arrivals_departures w).2.2 }

/-- Fold a sequence of filter changes over the dashboard state. -/
def runChanges (s : DashboardState) : List (List Report) → DashboardState
  | [] => s
  | w :: ws => runChanges (applyWindowChange s w) ws

/-- The summaries the presentation layer consumes are exactly the aggregator
applied to the current window. -/
def summariesMatchWindow (s : DashboardState) : Prop :=
  s.overall = (calculate_arrivals_departures s.window).1 ∧
  s.cargo = (calculate_arrivals_departures s.window).2.1 ∧
  s.passenger = (calculate_arrivals_departures s.window).2.2

/-- A wall-clock timestamp as loaded into the BaseDateTime column: calendar
date plus hour, the granularity `src/app.py` works at. -/
structure DateTime where
  year : Nat
  month : Nat
  day : Nat
  hour : Nat
deriving DecidableEq, Repr

/-- The decimal digit character for `n % 10`. -/
def digitChar (n : Nat) : Char :=
  Char.ofNat (48 + n % 10)

/-- The character sequence `strftime('%Y-%m-%d')` produces (modelled for
4-digit years and 2-digit months and days, which the bounds hypotheses of the
theorems below enforce): zero-padded decimal fields separated by dashes. -/
def dateChars (d : DateTime) : List Char :=
  [digitChar (d.year / 1000), digitChar (d.year / 100), digitChar (d.year / 10),
   digitChar d.year, '-', digitChar (d.month / 10), digitChar d.month, '-',
   digitChar (d.day / 10), digitChar d.day]

/-- The date-only string `src/app.py` line 43 overwrites BaseDateTime with. -/
def formatDate (d : DateTime) : String :=
  String.mk (dateChars d)

/-- A row of the table returned by `load_data`, before `src/app.py` lines
42-43 rewrite it: BaseDateTime still holds a full datetime. -/
structure RawRow where
  vessel : String
  baseDateTime : DateTime
  port : Option String
  vtype : Option String
deriving DecidableEq, Repr

/-- A row after `src/app.py` lines 42-43: the hour extracted into its own
column and BaseDateTime overwritten with the date-only string. -/
structure PreparedRow where
  vessel : String
  baseDateTime : String
  hour : Nat
  port : Option String
  vtype : Option String
deriving DecidableEq, Repr

/-- `src/app.py` lines 42-43 applied to one row:
`df['Hour'] = df['BaseDateTime'].dt.hour` and
`df['BaseDateTime'] = pd.to_datetime(df['BaseDateTime']).dt.strftime('%Y-%m-%d')`. -/
def prepareRow (r : RawRow) : PreparedRow :=
  { vessel := r.vessel
    baseDateTime := formatDate r.baseDateTime
    hour := r.baseDateTime.hour
    port := r.port
    vtype := r.vtype }

/-- The column rewrites of `src/app.py` lines 42-43 over the whole table. -/
def prepareTable (df : List RawRow) : List PreparedRow :=
  df.map prepareRow

/-- View a prepared row as the position report the aggregator reads: its
timestamp is the rewritten BaseDateTime string. -/
def toReport (r : PreparedRow) : Report :=
  { vessel := r.vessel
    timestamp := some r.baseDateTime
    port := r.port
    vtype := r.vtype }

/-- The table `src/app.py` line 46 hands to `calculate_arrivals_departures`:
the loaded table after the date rewrites. -/
def appInputTable (df : List RawRow) : List Report :=
  (prepareTable df).map toReport

/-- The three summary tables `src/app.py` line 46 computes. -/
def appSummaries (df : List RawRow) :
    List SummaryRow × List SummaryRow × List SummaryRow :=
  calculate_arrivals_departures (appInputTable df)

/-- Whether a character list spells a date-only value of the form YYYY-MM-DD. -/
def isDateOnlyChars : List Char → Bool
  | [y1, y2, y3, y4, h1, m1, m2, h2, d1, d2] =>
    y1.isDigit && y2.isDigit && y3.isDigit && y4.isDigit && h1 == '-' &&
    m1.isDigit && m2.isDigit && h2 == '-' && d1.isDigit && d2.isDigit
  | _ => false

/-- Whether a string spells a date-only value of the form YYYY-MM-DD. -/
def isDateOnly (s : String) : Bool :=
  isDateOnlyChars s.toList

/-- The dashboard state before any data is shown. -/
def emptyDashboard : DashboardState :=
  { window := [], overall := [], cargo := [], passenger := [] }

/-- Two same-day raw reports of one vessel, differing only in hour. -/
def rawMorning : RawRow :=
  { vessel := "V1", baseDateTime := { year := 2024, month := 1, day := 1, hour := 5 },
    port := some "A", vtype := some "Cargo" }

/-- The afternoon counterpart of `rawMorning`. -/
def rawAfternoon : RawRow :=
  { vessel := "V1", baseDateTime := { year := 2024, month := 1, day := 1, hour := 17 },
    port := some "A", vtype := some "Cargo" }

/-- A two-row raw table for one vessel on one calendar day. -/
def rawDay : List RawRow :=
  [rawMorning, rawAfternoon]

/-- No run produced by `runs` is empty. -/
theorem runs_ne_nil : ∀ l : List Report, ∀ s ∈ runs l, s ≠ []
  | [], _, hs => absurd hs (by simp [runs])
  | r :: rest, s, hs => by
    rw [runs] at hs
    cases h : runs rest with
    | nil =>
      rw [h] at hs
      simp only [List.mem_singleton] at hs
      simp [hs]
    | cons s0 ss =>
      cases s0 with
      | nil => exact absurd (h ▸ List.mem_cons_self [] ss) (by simpa using runs_ne_nil rest [] )
      | cons r2 s0 =>
        rw [h] at hs
        by_cases hp : (r.port == r2.port) = true
        · simp only [hp, if_pos] at hs
          rcases List.mem_cons.mp hs with h1 | h2
          · simp [h1]
          · exact runs_ne_nil rest s (h ▸ List.mem_cons_of_mem _ h2)
        · simp only [hp, if_neg, if_false] at hs
          rcases List.mem_cons.mp hs with h1 | h2
          · simp [h1]
          · exact runs_ne_nil rest s (h ▸ h2)

/-- Flattening the run decomposition restores the original report list: the
runs partition the sequence, preserving input order. -/
theorem runs_flatten : ∀ l : List Report, (runs l).flatten = l
  | [] => rfl
  | r :: rest => by
    have ih := runs_flatten rest
    rw [runs]
    cases h : runs rest with
    | nil =>
      rw [h] at ih
      simp only [List.flatten_nil] at ih
      simp [← ih]
    | cons s0 ss =>
      cases s0 with
      | nil => exact absurd (h ▸ List.mem_cons_self [] ss) (by simpa using runs_ne_nil rest [])
      | cons r2 s0 =>
        rw [h] at ih
        by_cases hp : (r.port == r2.port) = true
        · simp only [hp, if_pos]
          simpa using ih
        · simp only [hp, if_neg, if_false]
          simpa using ih

/-- All reports inside one run share the same nearest-port label. -/
theorem runs_port_eq :
    ∀ l : List Report, ∀ s ∈ runs l, ∀ a ∈ s, ∀ b ∈ s, a.port = b.port
  | [], s, hs => absurd hs (by simp [runs])
  | r :: rest, s, hs => by
    rw [runs] at hs
    cases h : runs rest with
    | nil =>
      rw [h] at hs
      simp only [List.mem_singleton] at hs
      subst hs
      intro a ha b hb
      simp only [List.mem_singleton] at ha hb
      rw [ha, hb]
    | cons s0 ss =>
      cases s0 with
      | nil => exact absurd (h ▸ List.mem_cons_self [] ss) (by simpa using runs_ne_nil rest [])
      | cons r2 s0 =>
        rw [h] at hs
        by_cases hp : (r.port == r2.port) = true
        · simp only [hp, if_pos] at hs
          rcases List.mem_cons.mp hs with h1 | h2
          · subst h1
            intro a ha b hb
            have key : ∀ x ∈ r :: r2 :: s0, x.port = r2.port := by
              intro x hx
              rcases List.mem_cons.mp hx with hx1 | hx2
              · subst hx1; exact eq_of_beq hp
              · exact runs_port_eq rest (r2 :: s0) (h ▸ List.mem_cons_self _ ss) x hx2
                  r2 (List.mem_cons_self r2 s0)
            rw [key a ha, key b hb]
          · exact runs_port_eq rest s (h ▸ List.mem_cons_of_mem _ h2)
        · simp only [hp, if_neg, if_false] at hs
          rcases List.mem_cons.mp hs with h1 | h2
          · subst h1
            intro a ha b hb
            simp only [List.mem_singleton] at ha hb
            rw [ha, hb]
          · exact runs_port_eq rest s (h ▸ h2)

/-- Maximality of the runs: two adjacent runs carry different nearest-port
labels, so no run can be extended. -/
theorem runs_chain :
    ∀ l : List Report, List.Chain' (fun s t => runLabel s ≠ runLabel t) (runs l)
  | [] => by simp [runs]
  | r :: rest => by
    have ih := runs_chain rest
    rw [runs]
    cases h : runs rest with
    | nil => simp
    | cons s0 ss =>
      cases s0 with
      | nil => exact absurd (h ▸ List.mem_cons_self [] ss) (by simpa using runs_ne_nil rest [])
      | cons r2 s0 =>
        rw [h] at ih
        by_cases hp : (r.port == r2.port) = true
        · simp only [hp, if_pos]
          rcases List.chain'_cons'.mp ih with ⟨hhead, htail⟩
          refine List.chain'_cons'.mpr ⟨?_, htail⟩
          intro y hy
          have : runLabel (r :: r2 :: s0) = runLabel (r2 :: s0) := by
            simp [runLabel, eq_of_beq hp]
          rw [this]
          exact hhead y hy
        · simp only [hp, if_neg, if_false]
          refine List.chain'_cons.mpr ⟨?_, ih⟩
          simp only [runLabel, ne_eq, Option.some.injEq]
          exact fun hc => hp (by simp [hc])

/-- `mkVisits` produces one visit per run. -/
theorem mkVisits_length (v : String) :
    ∀ ss : List (List Report), (mkVisits v ss).length = ss.length
  | [] => rfl
  | [_] => rfl
  | s :: s2 :: ss => by
    have := mkVisits_length v (s2 :: ss)
    simp only [mkVisits, List.length_cons] at this ⊢
    omega

/-- The i-th visit of a vessel carries the i-th run's port, first timestamp
as arrival, and last timestamp as departure. -/
theorem mkVisits_fields (v : String) :
    ∀ (ss : List (List Report)) (i : Nat) (h1 : i < (mkVisits v ss).length)
      (h2 : i < ss.length),
      ((mkVisits v ss).get ⟨i, h1⟩).vessel = v ∧
      ((mkVisits v ss).get ⟨i, h1⟩).port = runPort (ss.get ⟨i, h2⟩) ∧
      ((mkVisits v ss).get ⟨i, h1⟩).arrival = runArrival (ss.get ⟨i, h2⟩) ∧
      ((mkVisits v ss).get ⟨i, h1⟩).departure = runDeparture (ss.get ⟨i, h2⟩)
  | [], _, _, h2 => absurd h2 (by simp)
  | [s], 0, _, _ => ⟨rfl, rfl, rfl, rfl⟩
  | [s], i + 1, h1, _ => by simp [mkVisits] at h1
  | s :: s2 :: ss, 0, _, _ => ⟨rfl, rfl, rfl, rfl⟩
  | s :: s2 :: ss, i + 1, h1, h2 => by
    have h1' : i < (mkVisits v (s2 :: ss)).length := by
      simpa [mkVisits] using h1
    have h2' : i < (s2 :: ss).length := by simpa using h2
    exact mkVisits_fields v (s2 :: ss) i h1' h2'

/-- C1: per vessel, the aggregator partitions the time-ordered report
sequence into maximal contiguous runs sharing one nearest-port label (the
flattened runs restore the sequence, each run is label-constant, adjacent
runs differ in label), and the i-th visit's arrival and departure are the
first and last timestamps of the i-th run. -/
theorem c1_visits_are_maximal_runs (rs : List Report) (v : String) :
    ((runs (vesselReports rs v)).flatten = vesselReports rs v) ∧
    (∀ s ∈ runs (vesselReports rs v), ∀ a ∈ s, ∀ b ∈ s, a.port = b.port) ∧
    List.Chain' (fun s t => runLabel s ≠ runLabel t) (runs (vesselReports rs v)) ∧
    (visitsOfVessel rs v).length = (runs (vesselReports rs v)).length ∧
    (∀ (i : Nat) (h1 : i < (visitsOfVessel rs v).length)
       (h2 : i < (runs (vesselReports rs v)).length),
       ((visitsOfVessel rs v).get ⟨i, h1⟩).arrival
           = runArrival ((runs (vesselReports rs v)).get ⟨i, h2⟩) ∧
       ((visitsOfVessel rs v).get ⟨i, h1⟩).departure
           = runDeparture ((runs (vesselReports rs v)).get ⟨i, h2⟩) ∧
       ((visitsOfVessel rs v).get ⟨i, h1⟩).port
           = runPort ((runs (vesselReports rs v)).get ⟨i, h2⟩)) := by
  refine ⟨runs_flatten _, runs_port_eq _, runs_chain _, mkVisits_length v _, ?_⟩
  intro i h1 h2
  obtain ⟨_, hport, harr, hdep⟩ := mkVisits_fields v (runs (vesselReports rs v)) i h1 h2
  exact ⟨harr, hdep, hport⟩

/-- C1 witness: on the two-run input, the first visit of V1 is the run at
port A with arrival t1 and departure t1, and the run decomposition flattens
back to V1's report list. -/
theorem c1_visits_are_maximal_runs_witness :
    (runs (vesselReports twoPortInput "V1")).flatten = vesselReports twoPortInput "V1" ∧
    ((visitsOfVessel twoPortInput "V1").get ⟨0, by decide⟩).arrival
        = runArrival ((runs (vesselReports twoPortInput "V1")).get ⟨0, by decide⟩) := by
  refine ⟨(c1_visits_are_maximal_runs twoPortInput "V1").1, ?_⟩
  exact (((c1_visits_are_maximal_runs twoPortInput "V1").2.2.2.2) 0 (by decide) (by decide)).1

/-- C2: an empty input table yields three empty summary tables, and the
aggregator, being a total function, raises no fault. -/
theorem c2_empty_input_empty_summaries :
    calculate_arrivals_departures [] = ([], [], []) := by
  rfl

/-- C5: on the two-run input (vessel V1 at port A then port B) the overall
summary records exactly one arrival and one departure at A, and exactly one
arrival and no departure at B: the final visit is treated as currently
present, not as an error. -/
theorem c5_two_port_scenario :
    arrivalsAt (calculate_arrivals_departures twoPortInput).1 "A" = 1 ∧
    departuresAt (calculate_arrivals_departures twoPortInput).1 "A" = 1 ∧
    arrivalsAt (calculate_arrivals_departures twoPortInput).1 "B" = 1 ∧
    departuresAt (calculate_arrivals_departures twoPortInput).1 "B" = 0 := by
  decide

/-- Two tables with the same surviving reports produce the same visits. -/
theorem allVisits_congr {rs1 rs2 : List Report}
    (h : cleanReports rs1 = cleanReports rs2) : allVisits rs1 = allVisits rs2 := by
  simp only [allVisits, vessels, visitsOfVessel, vesselReports, h]

/-- C3: dropping the reports whose nearest-port label is missing/null leaves
all three summary tables unchanged, so such reports contribute to no row of
any port-keyed summary; the aggregator is total, so their presence aborts
nothing. -/
theorem c3_null_port_reports_contribute_nothing (rs : List Report) :
    calculate_arrivals_departures (rs.filter (fun r => r.port.isSome))
      = calculate_arrivals_departures rs := by
  have key0 : cleanReports (rs.filter (fun r => r.port.isSome)) = cleanReports rs := by
    simp only [cleanReports, List.filter_filter]
    refine List.filter_congr ?_
    intro a _
    cases hp : a.port <;> simp [validReport, hp]
  have key : ∀ q : Report → Bool,
      cleanReports ((rs.filter (fun r => r.port.isSome)).filter q)
        = cleanReports (rs.filter q) := by
    intro q
    simp only [cleanReports, List.filter_filter]
    refine List.filter_congr ?_
    intro a _
    cases hp : a.port <;> simp [validReport, hp]
  simp only [calculate_arrivals_departures]
  rw [allVisits_congr key0, allVisits_congr (key isCargoReport),
    allVisits_congr (key isPassengerReport)]

/-- A summary table never has two rows for the same port name. -/
theorem summarize_ports_nodup (vs : List Visit) :
    ((summarize vs).map (fun row => row.port)).Nodup := by
  have h : (summarize vs).map (fun row => row.port)
      = (visitPorts vs).map (fun p => p) := by
    simp only [summarize, List.map_map]
    rfl
  rw [h, List.map_id']
  exact List.nodup_dedup _

/-- C7: each of the three summary tables (overall, cargo-only,
passenger-only) contains at most one row per port name. -/
theorem c7_one_row_per_port (rs : List Report) :
    (((calculate_arrivals_departures rs).1).map (fun row => row.port)).Nodup ∧
    (((calculate_arrivals_departures rs).2.1).map (fun row => row.port)).Nodup ∧
    (((calculate_arrivals_departures rs).2.2).map (fun row => row.port)).Nodup :=
  ⟨summarize_ports_nodup _, summarize_ports_nodup _, summarize_ports_nodup _⟩

/-- C8: the aggregator is a pure function of the input table, so recomputing
on the same immutable table gives identical summaries; and it never reorders
reports: each vessel's report sequence is a subsequence of the input (stable
input order, no reordering by any other key), and the runs flatten back to
that sequence in order. -/
theorem c8_deterministic_and_stable (rs : List Report) :
    calculate_arrivals_departures rs = calculate_arrivals_departures rs ∧
    (∀ v, (vesselReports rs v).Sublist rs) ∧
    (∀ v, (runs (vesselReports rs v)).flatten = vesselReports rs v) := by
  refine ⟨rfl, ?_, fun v => runs_flatten _⟩
  intro v
  exact (List.filter_sublist _).trans (List.filter_sublist _)

/-- Counting arrivals over a summary totals the number of visits. -/
theorem summarize_arrivals_sum (vs : List Visit) :
    ((summarize vs).map (fun row => row.arrivals)).sum = vs.length := by
  have hmap : (summarize vs).map (fun row => row.arrivals)
      = (visitPorts vs).map (fun p => vs.countP (fun x => x.port == p)) := by
    simp only [summarize, List.map_map]
    rfl
  have hcount : (fun p => vs.countP (fun x => x.port == p))
      = (fun p => (vs.map (fun x => x.port)).count p) := by
    funext p
    rw [List.count_eq_countP, List.countP_map]
    rfl
  rw [hmap, hcount]
  have hlen := List.sum_map_count_dedup_eq_length (vs.map (fun x => x.port))
  simpa [visitPorts] using hlen

/-- C4: the per-port arrival counts of the overall summary sum to the number
of (vessel, visit) run starts of the whole table: one arrival per visit, and
one visit per run of each vessel. -/
theorem c4_arrivals_sum_counts_run_starts (rs : List Report) :
    (((calculate_arrivals_departures rs).1).map (fun row => row.arrivals)).sum
        = (allVisits rs).length ∧
    (allVisits rs).length
        = ((vessels rs).map (fun v => (runs (vesselReports rs v)).length)).sum := by
  constructor
  · exact summarize_arrivals_sum _
  · simp only [allVisits, List.length_flatMap, visitsOfVessel]
    refine congrArg List.sum (List.map_congr_left ?_)
    intro v _
    exact mkVisits_length v _

/-- The counts a summary table reports for a port are the visit counts of
that port: all visits for arrivals, recorded-departure visits for
departures. -/
theorem summarize_counts (vs : List Visit) (p : String) :
    arrivalsAt (summarize vs) p = vs.countP (fun x => x.port == p) ∧
    departuresAt (summarize vs) p
      = vs.countP (fun x => x.port == p && x.recorded) := by
  have hfind : (summarize vs).find? (fun row => row.port == p)
      = ((visitPorts vs).find? (fun q => q == p)).map
          (fun q => ({ port := q,
                       arrivals := vs.countP (fun x => x.port == q),
                       departures := vs.countP (fun x => x.port == q && x.recorded) }
                     : SummaryRow)) := by
    rw [summarize, List.find?_map]
    rfl
  cases hq : (visitPorts vs).find? (fun q => q == p) with
  | none =>
    have hnot : ∀ x ∈ vs, ¬ (x.port == p) = true := by
      intro x hx hb
      have hmem : p ∈ visitPorts vs := by
        rw [visitPorts, List.mem_dedup]
        exact List.mem_map.mpr ⟨x, hx, eq_of_beq hb⟩
      have := List.find?_eq_none.mp hq p hmem
      simp at this
    have hzero : vs.countP (fun x => x.port == p) = 0 :=
      List.countP_eq_zero.mpr hnot
    have hzero2 : vs.countP (fun x => x.port == p && x.recorded) = 0 := by
      refine List.countP_eq_zero.mpr ?_
      intro x hx hb
      rw [Bool.and_eq_true] at hb
      exact hnot x hx hb.1
    constructor
    · rw [arrivalsAt, hfind, hq, hzero]
      rfl
    · rw [departuresAt, hfind, hq, hzero2]
      rfl
  | some q =>
    have hqb := List.find?_some hq
    have hqp : q = p := eq_of_beq hqb
    constructor
    · rw [arrivalsAt, hfind, hq]
      simp [hqp]
    · rw [departuresAt, hfind, hq]
      simp [hqp]

/-- Counting visits over the whole table decomposes into a sum over
vessels. -/
theorem countP_allVisits (rs : List Report) (q : Visit → Bool) :
    (allVisits rs).countP q
      = ((vessels rs).map (fun v => (visitsOfVessel rs v).countP q)).sum := by
  have h1 : allVisits rs = ((vessels rs).map (fun v => visitsOfVessel rs v)).flatten := rfl
  rw [h1, List.countP_flatten, List.map_map]
  rfl

/-- Membership in the vessel list means having a valid report. -/
theorem mem_vessels {rs : List Report} {v : String} :
    v ∈ vessels rs ↔ ∃ r, r ∈ rs ∧ validReport r = true ∧ r.vessel = v := by
  constructor
  · intro h
    rw [vessels, List.mem_dedup] at h
    obtain ⟨r, hr, hv⟩ := List.mem_map.mp h
    simp only [cleanReports] at hr
    obtain ⟨hr1, hr2⟩ := List.mem_filter.mp hr
    exact ⟨r, hr1, hr2, hv⟩
  · rintro ⟨r, h1, h2, h3⟩
    rw [vessels, List.mem_dedup]
    refine List.mem_map.mpr ⟨r, ?_, h3⟩
    simp only [cleanReports]
    exact List.mem_filter.mpr ⟨h1, h2⟩

/-- Pre-filtering the table by a vessel-level predicate that holds on all of
one vessel's reports does not change that vessel's report sequence. -/
theorem vesselReports_filter_eq {rs : List Report} {q : Report → Bool} {v : String}
    (hall : ∀ r ∈ rs, r.vessel = v → q r = true) :
    vesselReports (rs.filter q) v = vesselReports rs v := by
  simp only [vesselReports, cleanReports, List.filter_filter]
  refine List.filter_congr ?_
  intro a ha
  cases hv : (a.vessel == v) with
  | false => simp [hv]
  | true => simp [hv, hall a ha (eq_of_beq hv)]

/-- Pre-filtering by such a predicate does not change the vessel's visits. -/
theorem visitsOfVessel_filter_eq {rs : List Report} {q : Report → Bool} {v : String}
    (hall : ∀ r ∈ rs, r.vessel = v → q r = true) :
    visitsOfVessel (rs.filter q) v = visitsOfVessel rs v := by
  rw [visitsOfVessel, visitsOfVessel, vesselReports_filter_eq hall]

/-- Whether a report matches the cargo category depends only on its
vessel-type label. -/
theorem isCargoReport_congr {a b : Report} (h : a.vtype = b.vtype) :
    isCargoReport a = isCargoReport b := by
  simp only [isCargoReport, h]

/-- Whether a report matches the passenger category depends only on its
vessel-type label. -/
theorem isPassengerReport_congr {a b : Report} (h : a.vtype = b.vtype) :
    isPassengerReport a = isPassengerReport b := by
  simp only [isPassengerReport, h]

/-- No vessel-type label matches both the cargo and the passenger
category. -/
theorem not_cargo_and_passenger (r : Report) :
    ¬ (isCargoReport r = true ∧ isPassengerReport r = true) := by
  rintro ⟨hc, hp⟩
  cases hvt : r.vtype with
  | none =>
    simp only [isCargoReport, hvt] at hc
    exact absurd hc (by decide)
  | some t =>
    simp only [isCargoReport, isPassengerReport, hvt, cargoLabel, passengerLabel] at hc hp
    rw [eq_of_beq hc] at hp
    exact absurd hp (by decide)

/-- Summing a Nat-valued function over a duplicate-free sublist of ports is
bounded by the sum over the full list. -/
theorem sum_le_of_nodup_subset (f : String → Nat) {A S : List String}
    (hA : A.Nodup) (hsub : A ⊆ S) : (A.map f).sum ≤ (S.map f).sum := by
  obtain ⟨l, hperm, hsl⟩ := hA.subperm hsub
  have h1 : (l.map f).sum = (A.map f).sum := (hperm.map f).sum_eq
  have h2 : (l.map f).sum ≤ (S.map f).sum :=
    List.Sublist.sum_le_sum (hsl.map f) (fun a _ => Nat.zero_le a)
  omega

/-- When every vessel carries one vessel-type label, any count of
cargo-breakdown visits plus passenger-breakdown visits is bounded by the
overall count. -/
theorem subbreakdown_count_le (rs : List Report)
    (huni : ∀ a ∈ rs, ∀ b ∈ rs, a.vessel = b.vessel → a.vtype = b.vtype)
    (q : Visit → Bool) :
    (allVisits (rs.filter isCargoReport)).countP q
      + (allVisits (rs.filter isPassengerReport)).countP q
      ≤ (allVisits rs).countP q := by
  have hcargoAll : ∀ v ∈ vessels (rs.filter isCargoReport),
      ∀ r ∈ rs, r.vessel = v → isCargoReport r = true := by
    intro v hv r hr hrv
    obtain ⟨r0, hr0mem, _, hr0v⟩ := mem_vessels.mp hv
    obtain ⟨hr0rs, hr0c⟩ := List.mem_filter.mp hr0mem
    have hvt : r.vtype = r0.vtype := huni r hr r0 hr0rs (by rw [hrv, hr0v])
    rw [isCargoReport_congr hvt]
    exact hr0c
  have hpassAll : ∀ v ∈ vessels (rs.filter isPassengerReport),
      ∀ r ∈ rs, r.vessel = v → isPassengerReport r = true := by
    intro v hv r hr hrv
    obtain ⟨r0, hr0mem, _, hr0v⟩ := mem_vessels.mp hv
    obtain ⟨hr0rs, hr0c⟩ := List.mem_filter.mp hr0mem
    have hvt : r.vtype = r0.vtype := huni r hr r0 hr0rs (by rw [hrv, hr0v])
    rw [isPassengerReport_congr hvt]
    exact hr0c
  have hcsum : (allVisits (rs.filter isCargoReport)).countP q
      = ((vessels (rs.filter isCargoReport)).map
          (fun v => (visitsOfVessel rs v).countP q)).sum := by
    rw [countP_allVisits]
    refine congrArg List.sum (List.map_congr_left ?_)
    intro v hv
    exact congrArg (List.countP q) (visitsOfVessel_filter_eq (hcargoAll v hv))
  have hpsum : (allVisits (rs.filter isPassengerReport)).countP q
      = ((vessels (rs.filter isPassengerReport)).map
          (fun v => (visitsOfVessel rs v).countP q)).sum := by
    rw [countP_allVisits]
    refine congrArg List.sum (List.map_congr_left ?_)
    intro v hv
    exact congrArg (List.countP q) (visitsOfVessel_filter_eq (hpassAll v hv))
  have hsub : (vessels (rs.filter isCargoReport) ++ vessels (rs.filter isPassengerReport))
      ⊆ vessels rs := by
    intro v hv
    rcases List.mem_append.mp hv with h | h
    · obtain ⟨r0, hr0mem, hr0valid, hr0v⟩ := mem_vessels.mp h
      exact mem_vessels.mpr ⟨r0, (List.mem_filter.mp hr0mem).1, hr0valid, hr0v⟩
    · obtain ⟨r0, hr0mem, hr0valid, hr0v⟩ := mem_vessels.mp h
      exact mem_vessels.mpr ⟨r0, (List.mem_filter.mp hr0mem).1, hr0valid, hr0v⟩
  have hdisj : List.Disjoint (vessels (rs.filter isCargoReport))
      (vessels (rs.filter isPassengerReport)) := by
    intro v hvc hvp
    obtain ⟨r1, hr1mem, _, hr1v⟩ := mem_vessels.mp hvc
    obtain ⟨r2, hr2mem, _, hr2v⟩ := mem_vessels.mp hvp
    obtain ⟨hr1rs, hr1c⟩ := List.mem_filter.mp hr1mem
    obtain ⟨hr2rs, hr2p⟩ := List.mem_filter.mp hr2mem
    have hvt : r2.vtype = r1.vtype := huni r2 hr2rs r1 hr1rs (by rw [hr2v, hr1v])
    have hc2 : isCargoReport r2 = true := by
      rw [isCargoReport_congr hvt]
      exact hr1c
    exact not_cargo_and_passenger r2 ⟨hc2, hr2p⟩
  have hnodup : (vessels (rs.filter isCargoReport)
      ++ vessels (rs.filter isPassengerReport)).Nodup :=
    List.Nodup.append (List.nodup_dedup _) (List.nodup_dedup _) hdisj
  calc (allVisits (rs.filter isCargoReport)).countP q
        + (allVisits (rs.filter isPassengerReport)).countP q
      = ((vessels (rs.filter isCargoReport)).map
            (fun v => (visitsOfVessel rs v).countP q)).sum
        + ((vessels (rs.filter isPassengerReport)).map
            (fun v => (visitsOfVessel rs v).countP q)).sum := by rw [hcsum, hpsum]
    _ = ((vessels (rs.filter isCargoReport) ++ vessels (rs.filter isPassengerReport)).map
            (fun v => (visitsOfVessel rs v).countP q)).sum := by
          rw [List.map_append, List.sum_append]
    _ ≤ ((vessels rs).map (fun v => (visitsOfVessel rs v).countP q)).sum :=
          sum_le_of_nodup_subset _ hnodup hsub
    _ = (allVisits rs).countP q := (countP_allVisits rs q).symm

/-- C6 counterexample: on a table whose single vessel carries a cargo label
on one report and a passenger label on another, the cargo-only and
passenger-only arrivals at port A sum to 2 while the overall summary records
only 1, so the unconditional claim fails. -/
theorem c6_counterexample_mixed_labels :
    ¬ (arrivalsAt (calculate_arrivals_departures mixedTypeInput).2.1 "A"
        + arrivalsAt (calculate_arrivals_departures mixedTypeInput).2.2 "A"
        ≤ arrivalsAt (calculate_arrivals_departures mixedTypeInput).1 "A") := by
  decide

/-- C6 (amended): for tables in which all reports of one vessel carry the
same vessel-type label, the cargo-only plus passenger-only arrivals never
exceed the overall arrivals at any port, and likewise for departures. -/
theorem c6_subbreakdowns_bounded (rs : List Report)
    (huni : ∀ a ∈ rs, ∀ b ∈ rs, a.vessel = b.vessel → a.vtype = b.vtype)
    (p : String) :
    arrivalsAt (calculate_arrivals_departures rs).2.1 p
        + arrivalsAt (calculate_arrivals_departures rs).2.2 p
        ≤ arrivalsAt (calculate_arrivals_departures rs).1 p ∧
    departuresAt (calculate_arrivals_departures rs).2.1 p
        + departuresAt (calculate_arrivals_departures rs).2.2 p
        ≤ departuresAt (calculate_arrivals_departures rs).1 p := by
  have hqa := subbreakdown_count_le rs huni (fun x => x.port == p)
  have hqd := subbreakdown_count_le rs huni (fun x => x.port == p && x.recorded)
  constructor
  · simp only [calculate_arrivals_departures]
    rw [(summarize_counts (allVisits (rs.filter isCargoReport)) p).1,
      (summarize_counts (allVisits (rs.filter isPassengerReport)) p).1,
      (summarize_counts (allVisits rs) p).1]
    exact hqa
  · simp only [calculate_arrivals_departures]
    rw [(summarize_counts (allVisits (rs.filter isCargoReport)) p).2,
      (summarize_counts (allVisits (rs.filter isPassengerReport)) p).2,
      (summarize_counts (allVisits rs) p).2]
    exact hqd

/-- C6 witness: the amended bound instantiated on the two-run input at
port A. -/
theorem c6_subbreakdowns_bounded_witness :
    arrivalsAt (calculate_arrivals_departures twoPortInput).2.1 "A"
        + arrivalsAt (calculate_arrivals_departures twoPortInput).2.2 "A"
        ≤ arrivalsAt (calculate_arrivals_departures twoPortInput).1 "A" ∧
    departuresAt (calculate_arrivals_departures twoPortInput).2.1 "A"
        + departuresAt (calculate_arrivals_departures twoPortInput).2.2 "A"
        ≤ departuresAt (calculate_arrivals_departures twoPortInput).1 "A" :=
  c6_subbreakdowns_bounded twoPortInput (by decide) "A"

/-- The recomputation invariant survives any sequence of filter changes. -/
theorem runChanges_match :
    ∀ (ws : List (List Report)) (s : DashboardState),
      summariesMatchWindow s → summariesMatchWindow (runChanges s ws)
  | [], _, hs => hs
  | w :: ws, s, _ => runChanges_match ws (applyWindowChange s w) ⟨rfl, rfl, rfl⟩

/-- C9: every filter change replaces the summaries consumed by the
presentation layer with the aggregator applied to the newly filtered report
set, and hence after any sequence of window changes the consumed summaries
match the current window. -/
theorem c9_summaries_recomputed_on_window_change (s : DashboardState)
    (hs : summariesMatchWindow s) :
    (∀ w : List Report,
      (applyWindowChange s w).overall = (calculate_arrivals_departures w).1 ∧
      (applyWindowChange s w).cargo = (calculate_arrivals_departures w).2.1 ∧
      (applyWindowChange s w).passenger = (calculate_arrivals_departures w).2.2) ∧
    (∀ ws : List (List Report), summariesMatchWindow (runChanges s ws)) :=
  ⟨fun _ => ⟨rfl, rfl, rfl⟩, fun ws => runChanges_match ws s hs⟩

/-- C9 witness: starting from the empty dashboard and applying the two-run
window, the consumed summaries match the new window. -/
theorem c9_summaries_recomputed_on_window_change_witness :
    summariesMatchWindow (runChanges emptyDashboard [twoPortInput]) :=
  (c9_summaries_recomputed_on_window_change emptyDashboard ⟨rfl, rfl, rfl⟩).2 [twoPortInput]

/-- Digit characters are digits. -/
theorem digitChar_isDigit (n : Nat) : (digitChar n).isDigit = true := by
  have h : n % 10 < 10 := Nat.mod_lt _ (by norm_num)
  have hall : ∀ k, k < 10 → (Char.ofNat (48 + k)).isDigit = true := by decide
  exact hall (n % 10) h

/-- The rewritten BaseDateTime value always spells YYYY-MM-DD. -/
theorem isDateOnly_formatDate (d : DateTime) : isDateOnly (formatDate d) = true := by
  have h0 : isDateOnly (formatDate d) = isDateOnlyChars (dateChars d) := rfl
  rw [h0, dateChars]
  simp [isDateOnlyChars, digitChar_isDigit]

/-- Rows of the same calendar day get the same rewritten timestamp,
whatever their hours. -/
theorem prepareRow_same_day {a b : RawRow}
    (hy : a.baseDateTime.year = b.baseDateTime.year)
    (hm : a.baseDateTime.month = b.baseDateTime.month)
    (hd : a.baseDateTime.day = b.baseDateTime.day) :
    (toReport (prepareRow a)).timestamp = (toReport (prepareRow b)).timestamp := by
  simp only [toReport, prepareRow, formatDate, dateChars, hy, hm, hd]

/-- C10: before `calculate_arrivals_departures` is invoked at `src/app.py`
line 46, lines 42-43 extract each row's hour into the Hour column and
overwrite BaseDateTime with a date-only YYYY-MM-DD string, so every timestamp
the aggregator sees is such a string, two same-calendar-day reports carry
equal timestamps regardless of hour, and the aggregator runs on exactly this
rewritten table. -/
theorem c10_day_granularity (df : List RawRow)
    (_hbound : ∀ raw ∈ df, raw.baseDateTime.year < 10000 ∧
      raw.baseDateTime.month < 100 ∧ raw.baseDateTime.day < 100) :
    (∀ raw ∈ df,
      (prepareRow raw).hour = raw.baseDateTime.hour ∧
      (prepareRow raw).baseDateTime = formatDate raw.baseDateTime ∧
      isDateOnly ((prepareRow raw).baseDateTime) = true ∧
      (toReport (prepareRow raw)).timestamp = some (formatDate raw.baseDateTime)) ∧
    (∀ a ∈ df, ∀ b ∈ df,
      a.baseDateTime.year = b.baseDateTime.year →
      a.baseDateTime.month = b.baseDateTime.month →
      a.baseDateTime.day = b.baseDateTime.day →
      (toReport (prepareRow a)).timestamp = (toReport (prepareRow b)).timestamp) ∧
    appSummaries df = calculate_arrivals_departures ((df.map prepareRow).map toReport) := by
  refine ⟨?_, ?_, rfl⟩
  · intro raw _
    exact ⟨rfl, rfl, isDateOnly_formatDate raw.baseDateTime, rfl⟩
  · intro a _ b _ hy hm hd
    exact prepareRow_same_day hy hm hd

/-- C10 witness: the two same-day rows get the identical date-only timestamp
2024-01-01 even though their hours differ. -/
theorem c10_day_granularity_witness :
    isDateOnly ((prepareRow rawMorning).baseDateTime) = true ∧
    (toReport (prepareRow rawMorning)).timestamp
      = (toReport (prepareRow rawAfternoon)).timestamp :=
  ⟨((c10_day_granularity rawDay (by decide)).1 rawMorning (by decide)).2.2.1,
   (c10_day_granularity rawDay (by decide)).2.1 rawMorning (by decide)
     rawAfternoon (by decide) rfl rfl rfl⟩

end VesselVision
